import Mathlib

deriving instance DecidableEq for Except

/-!
Verification development for the BOP Challenge 2024 pose-evaluation
orchestrator (`scripts/eval_bop24_pose.py`).

The script's per-submission pipeline is embedded shallowly:

* floating-point values produced by `np.mean` are modelled as exact
  rationals, except that the NaN produced by `np.mean` on an empty
  sequence (and its propagation through later means) is modelled
  explicitly by the `NpVal` type;
* the timing-validation loop (script lines 111-131) becomes the
  tail-recursive `scanTimes` over an insertion-ordered association list,
  mirroring the Python dict `times`;
* the three-loop mAP aggregation (script lines 217-262) becomes
  `aggregateFiles` / `mAPLoop2` / `mAP_per_error_type`, with Python's
  `dict.setdefault(..., []).append(...)` modelled by `setdefaultAppend`;
* the orchestration of external subprocesses (error stage, score stage,
  score-file reads) is modelled by `runPipeline`, which is parametrised
  by an `Oracle` giving each external call's termination status and each
  score file's contents, and which also returns the ordered trace of
  external events so that ordering guarantees can be stated.  Blocking
  calls (`subprocess.call`, and the `map_async`/`close`/`join` barrier
  of `multiprocessing.Pool`) appear in the trace at the program point
  where the script waits for them.
-/

namespace BopEval

/-- A floating-point value as produced by `np.mean`: either an exact
number (modelled as a rational) or NaN. -/
inductive NpVal where
  | num (q : ℚ)
  | nan
deriving DecidableEq, Repr

/-- Plain arithmetic mean of a list of rationals (sum divided by length). -/
def qMean (l : List ℚ) : ℚ := l.sum / (l.length : ℚ)

/-- `np.mean` on a list of ordinary numbers: NaN on the empty list
(numpy emits a warning and returns NaN), otherwise the arithmetic mean. -/
def npMean (l : List ℚ) : NpVal :=
  if l.isEmpty then NpVal.nan else NpVal.num (qMean l)

/-- Extract the list of rationals from a list of `NpVal`s, failing if any
element is NaN. -/
def allNums : List NpVal → Option (List ℚ)
  | [] => some []
  | NpVal.num q :: rest => (allNums rest).map (fun qs => q :: qs)
  | NpVal.nan :: _ => none

/-- `np.mean` on a list of values that may themselves be NaN: NaN if the
list is empty or contains a NaN, otherwise the arithmetic mean. -/
def npMeanVals (l : List NpVal) : NpVal :=
  match allNums l with
  | some qs => npMean qs
  | none => NpVal.nan

/-- Key-based lookup in an association list (first match wins), the
analogue of a Python dict read. -/
def alookup {α β : Type} [DecidableEq α] : List (α × β) → α → Option β
  | [], _ => none
  | (k, v) :: rest, a => if k = a then some v else alookup rest a

/-!  ## Timing validation (script lines 107-131)  -/

/-- One pose estimate as loaded by `inout.load_bop_results`; only the
fields the orchestrator reads are modelled.  `time` is the reported
estimation time, with negative values meaning "time not reported". -/
structure Estimate where
  scene_id : Nat
  im_id : Nat
  obj_id : Nat
  score : ℚ
  time : ℚ
deriving DecidableEq, Repr

/-- The `(scene_id, im_id)` key under which the script records times
(the Python code formats it as a string; only injectivity matters). -/
abbrev ImKey := Nat × Nat

def Estimate.key (e : Estimate) : ImKey := (e.scene_id, e.im_id)

/-- The timing loop of the script (lines 113-126): scan the estimates,
recording the first time seen for each `(scene_id, im_id)` key.  A
negative time marks times-unavailable and stops the scan (`break`); a
time differing from the recorded one by more than `0.001` raises a
`ValueError` naming the scene and image, modelled as `.error key`.
Returns the recorded times (insertion-ordered, like the Python dict)
and the `times_available` flag. -/
def scanTimes : List Estimate → List (ImKey × ℚ) → Except ImKey (List (ImKey × ℚ) × Bool)
  | [], times => Except.ok (times, true)
  | e :: rest, times =>
    if e.time < 0 then Except.ok (times, false)
    else
      match alookup times e.key with
      | some t =>
        if 1/1000 < |t - e.time| then Except.error e.key
        else scanTimes rest times
      | none => scanTimes rest (times ++ [(e.key, e.time)])

/-- Lines 128-131 of the script: the average estimation time per image —
`np.mean` of the recorded per-image times when all times were available,
the sentinel `-1.0` otherwise.  A timing inconsistency propagates as the
`ValueError` of the scan. -/
def avgTimePerImage (ests : List Estimate) : Except ImKey NpVal :=
  match scanTimes ests [] with
  | Except.error k => Except.error k
  | Except.ok (times, avail) =>
    Except.ok (if avail then npMean (times.map (fun kv => kv.2)) else NpVal.num (-1))

/-- Direct (stateless) characterisation of which entries the timing scan
records: one entry per distinct key, carrying the time of the first
estimate with that key, skipping keys already seen. -/
def newEntries : List Estimate → List ImKey → List (ImKey × ℚ)
  | [], _ => []
  | e :: rest, seen =>
    if e.key ∈ seen then newEntries rest seen
    else (e.key, e.time) :: newEntries rest (e.key :: seen)

/-- The per-image times the scan records on a fully scanned sequence:
the time of the first estimate of each distinct `(scene_id, im_id)` key. -/
def recordedTimes (ests : List Estimate) : List ℚ :=
  (newEntries ests []).map (fun kv => kv.2)

/-- The time of the first estimate in `ests` carrying key `k`, if any. -/
def firstTimeOf (ests : List Estimate) (k : ImKey) : Option ℚ :=
  (ests.find? (fun e => decide (e.key = k))).map (fun e => e.time)

/-- An estimate offends timing validation when its time differs from the
first-recorded time of its key by more than `0.001`. -/
def offenderB (ests : List Estimate) (e : Estimate) : Bool :=
  match firstTimeOf ests e.key with
  | some t => decide (1/1000 < |t - e.time|)
  | none => false

/-!  ## Score aggregation (script lines 217-262)  -/

/-- One object's row in a score file `scores_*.json`: the object
identifier, its recall score (`scores[obj_id]`), and its ground-truth
instance count (`num_instances_per_object[obj_id]`).  The two parallel
JSON dicts are modelled as one entry list. -/
structure ScoreEntry where
  obj : Nat
  score : ℚ
  numInstances : Nat
deriving DecidableEq, Repr

/-- A score file: the entries of its `scores` dict in iteration order. -/
abbrev ScoreFile := List ScoreEntry

/-- Python's `d.setdefault(o, []).append(s)` on an insertion-ordered
association list: append `s` to the list at key `o`, creating the key at
the end if absent. -/
def setdefaultAppend {α : Type} [DecidableEq α] :
    List (α × List ℚ) → α → ℚ → List (α × List ℚ)
  | [], o, s => [(o, [s])]
  | (k, l) :: rest, o, s =>
    if k = o then (k, l ++ [s]) :: rest
    else (k, l) :: setdefaultAppend rest o s

/-- Processing of one score-file entry (script lines 237-244): a
positive instance count appends the score to the object's sequence in
`mAP_scores_per_object`; a zero count appends the object to
`num_object_ids_ignored`. -/
def aggEntry (st : List (Nat × List ℚ) × List Nat) (e : ScoreEntry) :
    List (Nat × List ℚ) × List Nat :=
  if 0 < e.numInstances then (setdefaultAppend st.1 e.obj e.score, st.2)
  else (st.1, st.2 ++ [e.obj])

/-- Loop 3 of the script: process every entry of every threshold's score
file in order, starting from the empty `mAP_scores_per_object` dict and
the empty ignored list. -/
def aggregateFiles (files : List ScoreFile) : List (Nat × List ℚ) × List Nat :=
  files.flatten.foldl aggEntry ([], [])

/-- Loop 2 of the script (lines 253-261): walk `mAP_scores_per_object`
in insertion order; `assert obj_id not in num_object_ids_ignored` fails
(modelled as `.error obj`) on the first averaged object that was also
ignored; otherwise collect `np.mean` of each object's score sequence. -/
def mAPLoop2 : List (Nat × List ℚ) → List Nat → Except Nat (List NpVal)
  | [], _ => Except.ok []
  | (o, l) :: rest, ignored =>
    if o ∈ ignored then Except.error o
    else
      match mAPLoop2 rest ignored with
      | Except.error e => Except.error e
      | Except.ok ms => Except.ok (npMean l :: ms)

/-- The per-error-type mAP (script line 262): `np.mean` over the
per-object means, or the assertion failure of loop 2. -/
def mAP_per_error_type (files : List ScoreFile) : Except Nat NpVal :=
  match mAPLoop2 (aggregateFiles files).1 (aggregateFiles files).2 with
  | Except.error o => Except.error o
  | Except.ok ms => Except.ok (npMeanVals ms)

/-- The scores of the entries of `es` that belong to object `o` and have
a positive instance count, in order. -/
def posScoresE (es : List ScoreEntry) (o : Nat) : List ℚ :=
  (es.filter (fun e => decide (e.obj = o) && decide (0 < e.numInstances))).map
    (fun e => e.score)

/-- Direct characterisation, for one object, of the scores the
aggregation collects: the scores of every entry for that object whose
instance count is positive, in file-then-entry order. -/
def posScores (files : List ScoreFile) (o : Nat) : List ℚ :=
  posScoresE files.flatten o

/-- Direct characterisation of `num_object_ids_ignored`: the objects of
the zero-instance-count entries, in file-then-entry order. -/
def zeroObjs (files : List ScoreFile) : List Nat :=
  (files.flatten.filter (fun e => decide (e.numInstances = 0))).map (fun e => e.obj)

/-!  ## Final scores (script lines 270-287)  -/

/-- The persisted `scores_bop24.json` object (script lines 271-287). -/
structure FinalScores where
  bop24_mAP_mssd : NpVal
  bop24_mAP_mspd : NpVal
  bop24_mAP : NpVal
  bop24_average_time_per_image : NpVal
deriving DecidableEq, Repr

/-- Lines 271-283: the per-error-type mAPs are copied, the combined
`bop24_mAP` is `np.mean` of the mssd and mspd mAPs, and the average time
per image is copied verbatim. -/
def mkFinalScores (m_mssd m_mspd avg : NpVal) : FinalScores :=
  { bop24_mAP_mssd := m_mssd
    bop24_mAP_mspd := m_mspd
    bop24_mAP := npMeanVals [m_mssd, m_mspd]
    bop24_average_time_per_image := avg }

/-!  ## Stage dispatch and orchestration (script lines 133-287)

The two external stages are spawned subprocesses; their behaviour is a
parameter of the model (`Oracle`).  `runPipeline` mirrors the statement
order of the script for one result submission and returns both the
outcome and the ordered trace of external events.  -/

/-- The two configured error types (`p["errors"]`, script lines 24-36). -/
inductive ErrType where
  | mssd
  | mspd
deriving DecidableEq, Repr

/-- The correctness thresholds of each error type: `np.arange(0.05,
0.51, 0.05)` for mssd and `np.arange(5, 51, 5)` for mspd (each
`correct_th` entry is the singleton list of one threshold). -/
def correct_th : ErrType → List ℚ
  | ErrType.mssd => [1/20, 1/10, 3/20, 1/5, 1/4, 3/10, 7/20, 2/5, 9/20, 1/2]
  | ErrType.mspd => [5, 10, 15, 20, 25, 30, 35, 40, 45, 50]

/-- Number of score-computation tasks dispatched per error type: one per
correctness threshold. -/
def numThs (et : ErrType) : Nat := (correct_th et).length

/-- An observable external action of the orchestrator, in the order the
script performs (and waits for) it:
* `errStageRun et s` — the blocking `subprocess.call` of the error stage
  for error type `et` returned status `s` (line 160);
* `scoreTaskRun et k s` — the score-computation task for threshold index
  `k` of `et` terminated with status `s` (line 202 in sequential mode;
  inside the `map_async`/`close`/`join` barrier of the worker pool,
  lines 205-208, in pooled mode);
* `readScores et k` — the aggregation loaded the score file of threshold
  index `k` of `et` (lines 232-235; both `load_json` calls). -/
inductive Event where
  | errStageRun (et : ErrType) (status : Int)
  | scoreTaskRun (et : ErrType) (k : Nat) (status : Int)
  | readScores (et : ErrType) (k : Nat)
deriving DecidableEq, Repr

/-- The error type an event belongs to. -/
def Event.etOf : Event → ErrType
  | errStageRun et _ => et
  | scoreTaskRun et _ _ => et
  | readScores et _ => et

/-- Behaviour of the external world: the termination status of each
error-stage invocation, the termination status of each score task, and
the contents of each score file the aggregation reads. -/
structure Oracle where
  errStatus : ErrType → Int
  scoreStatus : ErrType → Nat → Int
  scoreFiles : ErrType → Nat → ScoreFile

/-- The fatal errors the script can raise for one submission. -/
inductive PipeErr where
  | timingInconsistency (scene im : Nat)
  | errorStageFailure (et : ErrType)
  | scoreStageFailure (et : ErrType) (k : Nat)
  | assertionFailure (et : ErrType) (obj : Nat)
deriving DecidableEq, Repr

/-- Sequential execution of score tasks (script lines 199-203): run the
tasks in order; the first non-zero status raises `RuntimeError`
immediately (`some k`), leaving later tasks unrun. -/
def runSeqTasks (o : Oracle) (et : ErrType) : List Nat → List Event × Option Nat
  | [] => ([], none)
  | k :: ks =>
    if o.scoreStatus et k ≠ 0 then ([Event.scoreTaskRun et k (o.scoreStatus et k)], some k)
    else
      (Event.scoreTaskRun et k (o.scoreStatus et k) :: (runSeqTasks o et ks).1,
        (runSeqTasks o et ks).2)

/-- The score-stage dispatch (script lines 199-208): strictly sequential
with fatal failures when `num_workers == 1`; otherwise every task runs
under the worker pool, whose `close`/`join` barrier completes them all
before the dispatch returns, and statuses are ignored. -/
def runScoreStage (o : Oracle) (nw : Nat) (et : ErrType) : List Event × Option Nat :=
  if nw = 1 then runSeqTasks o et (List.range (numThs et))
  else ((List.range (numThs et)).map (fun k => Event.scoreTaskRun et k (o.scoreStatus et k)), none)

/-- One iteration of Loop 1 (script lines 136-265) for error type `et`:
run the error stage (fatal on non-zero status, nothing else runs), then
dispatch the score tasks, then — only when no sequential task failed —
read every threshold's score file and aggregate. -/
def runErrorType (o : Oracle) (nw : Nat) (et : ErrType) : List Event × Except PipeErr NpVal :=
  if o.errStatus et ≠ 0 then
    ([Event.errStageRun et (o.errStatus et)], Except.error (PipeErr.errorStageFailure et))
  else
    match (runScoreStage o nw et).2 with
    | some k =>
      (Event.errStageRun et (o.errStatus et) :: (runScoreStage o nw et).1,
        Except.error (PipeErr.scoreStageFailure et k))
    | none =>
      match mAP_per_error_type ((List.range (numThs et)).map (fun k => o.scoreFiles et k)) with
      | Except.error obj =>
        (Event.errStageRun et (o.errStatus et) :: (runScoreStage o nw et).1 ++
            (List.range (numThs et)).map (fun k => Event.readScores et k),
          Except.error (PipeErr.assertionFailure et obj))
      | Except.ok m =>
        (Event.errStageRun et (o.errStatus et) :: (runScoreStage o nw et).1 ++
            (List.range (numThs et)).map (fun k => Event.readScores et k),
          Except.ok m)

/-- The stage part of the pipeline (script lines 133-287), entered after
timing validation with the already-computed average time per image:
mssd, then mspd, then the final-score combination.  A fatal error aborts
immediately. -/
def pipelineStages (o : Oracle) (nw : Nat) (avg : NpVal) :
    List Event × Except PipeErr FinalScores :=
  match (runErrorType o nw ErrType.mssd).2 with
  | Except.error e => ((runErrorType o nw ErrType.mssd).1, Except.error e)
  | Except.ok m1 =>
    match (runErrorType o nw ErrType.mspd).2 with
    | Except.error e =>
      ((runErrorType o nw ErrType.mssd).1 ++ (runErrorType o nw ErrType.mspd).1,
        Except.error e)
    | Except.ok m2 =>
      ((runErrorType o nw ErrType.mssd).1 ++ (runErrorType o nw ErrType.mspd).1,
        Except.ok (mkFinalScores m1 m2 avg))

/-- The whole per-submission pipeline (script lines 98-287): timing
validation, then the stages.  `mkFinalScores` — the content of the
persisted `scores_bop24.json` — is produced only when every stage
succeeded. -/
def runPipeline (o : Oracle) (ests : List Estimate) (nw : Nat) :
    List Event × Except PipeErr FinalScores :=
  match scanTimes ests [] with
  | Except.error k => ([], Except.error (PipeErr.timingInconsistency k.1 k.2))
  | Except.ok (times, avail) =>
    pipelineStages o nw
      (if avail then npMean (times.map (fun kv => kv.2)) else NpVal.num (-1))

/-!  ## Auxiliary notions used to state the claims  -/

/-- The first time recorded for key `k` at a point where the scan's
accumulator is `acc` and the remaining estimates are `ests`: the
accumulator entry if present, else the first matching time ahead. -/
def fstT (acc : List (ImKey × ℚ)) (ests : List Estimate) (k : ImKey) : Option ℚ :=
  match alookup acc k with
  | some t => some t
  | none => firstTimeOf ests k

/-- Whether an estimate's time conflicts (by more than `0.001`) with the
first time for its key, relative to a scan state. -/
def offFromB (acc : List (ImKey × ℚ)) (ests : List Estimate) (e : Estimate) : Bool :=
  match fstT acc ests e.key with
  | some t => decide (1/1000 < |t - e.time|)
  | none => false

/-- An event with its termination status forgotten, used to compare the
stages two runs performed independently of the statuses they saw. -/
def Event.eraseStatus : Event → Event
  | Event.errStageRun et _ => Event.errStageRun et 0
  | Event.scoreTaskRun et k _ => Event.scoreTaskRun et k 0
  | Event.readScores et k => Event.readScores et k

/-!  ## Concrete inputs used by witnesses and counterexamples  -/

/-- Three threshold files realising the spec's averaging example: object
1 scores `[0.2, 0.4, 0.6]`, object 2 scores `[1.0, 1.0]`, all instance
counts positive. -/
def exAveraging : List ScoreFile :=
  [[⟨1, 1/5, 1⟩, ⟨2, 1, 1⟩], [⟨1, 2/5, 1⟩, ⟨2, 1, 1⟩], [⟨1, 3/5, 1⟩]]

/-- Estimates on one image whose second and third times differ by
`0.0017 > 0.001` while each stays within `0.001` of the first. -/
def exPairConflict : List Estimate :=
  [⟨0, 0, 0, 0, 1⟩, ⟨0, 0, 1, 0, 1 + 9/10000⟩, ⟨0, 0, 2, 0, 1 - 8/10000⟩]

/-- Estimates on one image whose times differ by `0.002 > 0.001`. -/
def exConflict : List Estimate :=
  [⟨0, 0, 0, 0, 1⟩, ⟨0, 0, 1, 0, 1 + 2/1000⟩]

/-- Estimates with negative time and all times equal per key. -/
def exTimes : List Estimate :=
  [⟨0, 0, 0, 0, 3⟩, ⟨0, 1, 1, 0, 5⟩, ⟨0, 0, 2, 0, 3⟩]

/-- One threshold file whose only object has instance count `0`. -/
def exAllZero : List ScoreFile := [[⟨1, 0, 0⟩]]

/-- Two threshold files reporting object 1 with zero instances in one
and two instances in the other. -/
def exMixedZero : List ScoreFile := [[⟨1, 1/2, 0⟩], [⟨1, 1/2, 2⟩]]

/-- An external world in which every stage terminates with status 0 and
every score file is empty. -/
def trivOracle : Oracle where
  errStatus := fun _ => 0
  scoreStatus := fun _ _ => 0
  scoreFiles := fun _ _ => []

/-- An external world whose score tasks all terminate with status 1. -/
def failTasksOracle : Oracle where
  errStatus := fun _ => 0
  scoreStatus := fun _ _ => 1
  scoreFiles := fun _ _ => []

/-- An external world whose error stages terminate with status 1. -/
def failErrOracle : Oracle where
  errStatus := fun _ => 1
  scoreStatus := fun _ _ => 0
  scoreFiles := fun _ _ => []

/-!  ## Association-list lemmas  -/

theorem alookup_eq_none_iff {α β : Type} [DecidableEq α] (l : List (α × β)) (a : α) :
    alookup l a = none ↔ a ∉ l.map Prod.fst := by
  induction l with
  | nil => simp [alookup]
  | cons kv rest ih =>
    obtain ⟨k, v⟩ := kv
    by_cases h : k = a
    · subst h
      simp [alookup]
    · simp [alookup, h, ih, Ne.symm h]

theorem mem_keys_of_alookup_eq_some {α β : Type} [DecidableEq α] {l : List (α × β)} {a : α}
    {b : β} (h : alookup l a = some b) : a ∈ l.map Prod.fst := by
  by_contra hmem
  rw [← alookup_eq_none_iff] at hmem
  rw [h] at hmem
  exact Option.noConfusion hmem

theorem alookup_append_singleton {α β : Type} [DecidableEq α] (l : List (α × β)) (k0 : α)
    (b0 : β) (a : α) :
    alookup (l ++ [(k0, b0)]) a =
      match alookup l a with
      | some b => some b
      | none => if k0 = a then some b0 else none := by
  induction l with
  | nil => simp [alookup]
  | cons kv rest ih =>
    obtain ⟨k, v⟩ := kv
    by_cases h : k = a <;> simp [alookup, h, ih]

theorem alookup_of_mem_of_nodup {α β : Type} [DecidableEq α] {l : List (α × β)}
    (hnd : (l.map Prod.fst).Nodup) {p : α × β} (hp : p ∈ l) : alookup l p.1 = some p.2 := by
  induction l with
  | nil => cases hp
  | cons kv rest ih =>
    obtain ⟨k, v⟩ := kv
    rcases List.mem_cons.mp hp with h | h
    · subst h
      simp [alookup]
    · have hk : p.1 ≠ k := by
        intro he
        have : k ∈ rest.map Prod.fst := he ▸ List.mem_map_of_mem Prod.fst h
        exact (List.nodup_cons.mp hnd).1 this
      simp [alookup, Ne.symm hk]
      exact ih (List.nodup_cons.mp hnd).2 h

/-!  ## Timing-scan lemmas  -/

theorem firstTimeOf_cons (e : Estimate) (rest : List Estimate) (k : ImKey) :
    firstTimeOf (e :: rest) k = if e.key = k then some e.time else firstTimeOf rest k := by
  by_cases h : e.key = k <;> simp [firstTimeOf, List.find?, h]

theorem newEntries_congr (ests : List Estimate) :
    ∀ s1 s2 : List ImKey, (∀ k, k ∈ s1 ↔ k ∈ s2) → newEntries ests s1 = newEntries ests s2 := by
  induction ests with
  | nil => intro s1 s2 _; rfl
  | cons e rest ih =>
    intro s1 s2 hiff
    by_cases h : e.key ∈ s1
    · have h2 : e.key ∈ s2 := (hiff e.key).mp h
      simp [newEntries, h, h2, ih s1 s2 hiff]
    · have h2 : e.key ∉ s2 := fun hc => h ((hiff e.key).mpr hc)
      simp only [newEntries, if_neg h, if_neg h2]
      have : ∀ k, k ∈ e.key :: s1 ↔ k ∈ e.key :: s2 := by
        intro k
        simp [hiff k]
      rw [ih _ _ this]

theorem scanTimes_ok_true (ests : List Estimate) :
    ∀ acc tm, scanTimes ests acc = Except.ok (tm, true) →
      (∀ e ∈ ests, 0 ≤ e.time) ∧ tm = acc ++ newEntries ests (acc.map Prod.fst) := by
  induction ests with
  | nil =>
    intro acc tm h
    simp only [scanTimes, Except.ok.injEq, Prod.mk.injEq] at h
    simp [newEntries, h.1.symm]
  | cons e rest ih =>
    intro acc tm h
    simp only [scanTimes] at h
    by_cases hneg : e.time < 0
    · rw [if_pos hneg] at h
      simp at h
    · rw [if_neg hneg] at h
      have hnn : 0 ≤ e.time := le_of_not_lt hneg
      split at h
      next t hl =>
        split at h
        next => cases h
        next hd =>
          obtain ⟨hrest, htm⟩ := ih acc tm h
          refine ⟨?_, ?_⟩
          · intro e' he'
            rcases List.mem_cons.mp he' with h' | h'
            · exact h' ▸ hnn
            · exact hrest e' h'
          · have hmem : e.key ∈ acc.map Prod.fst := mem_keys_of_alookup_eq_some hl
            rw [htm]
            simp [newEntries, hmem]
      next hl =>
        obtain ⟨hrest, htm⟩ := ih (acc ++ [(e.key, e.time)]) tm h
        have hmem : e.key ∉ acc.map Prod.fst := (alookup_eq_none_iff acc e.key).mp hl
        refine ⟨?_, ?_⟩
        · intro e' he'
          rcases List.mem_cons.mp he' with h' | h'
          · exact h' ▸ hnn
          · exact hrest e' h'
        · rw [htm]
          have hseen : ((acc ++ [(e.key, e.time)]).map Prod.fst) =
              acc.map Prod.fst ++ [e.key] := by simp
          rw [hseen]
          rw [newEntries_congr rest (acc.map Prod.fst ++ [e.key]) (e.key :: acc.map Prod.fst)
            (by intro k; simp [or_comm])]
          simp [newEntries, hmem, List.append_assoc]

theorem scanTimes_ok_false (ests : List Estimate) :
    ∀ acc tm, scanTimes ests acc = Except.ok (tm, false) → ∃ e ∈ ests, e.time < 0 := by
  induction ests with
  | nil =>
    intro acc tm h
    simp only [scanTimes, Except.ok.injEq, Prod.mk.injEq] at h
    exact absurd h.2 (by simp)
  | cons e rest ih =>
    intro acc tm h
    simp only [scanTimes] at h
    by_cases hneg : e.time < 0
    · exact ⟨e, List.mem_cons_self e rest, hneg⟩
    · rw [if_neg hneg] at h
      split at h
      next t hl =>
        split at h
        next => cases h
        next hd =>
          obtain ⟨e', he', hlt⟩ := ih acc tm h
          exact ⟨e', List.mem_cons_of_mem e he', hlt⟩
      next hl =>
        obtain ⟨e', he', hlt⟩ := ih (acc ++ [(e.key, e.time)]) tm h
        exact ⟨e', List.mem_cons_of_mem e he', hlt⟩

theorem fstT_nil (ests : List Estimate) (k : ImKey) : fstT [] ests k = firstTimeOf ests k := rfl

theorem fstT_cons_of_lookup_some {acc : List (ImKey × ℚ)} {e : Estimate} {t : ℚ}
    (hl : alookup acc e.key = some t) (rest : List Estimate) (k : ImKey) :
    fstT acc (e :: rest) k = fstT acc rest k := by
  unfold fstT
  cases hk : alookup acc k with
  | some t2 => rfl
  | none =>
    have hke : e.key ≠ k := by
      intro he
      rw [he, hk] at hl
      cases hl
    show firstTimeOf (e :: rest) k = firstTimeOf rest k
    rw [firstTimeOf_cons, if_neg hke]

theorem fstT_snoc_of_lookup_none {acc : List (ImKey × ℚ)} {e : Estimate}
    (_hl : alookup acc e.key = none) (rest : List Estimate) (k : ImKey) :
    fstT (acc ++ [(e.key, e.time)]) rest k = fstT acc (e :: rest) k := by
  unfold fstT
  rw [alookup_append_singleton]
  cases hk : alookup acc k with
  | some t => rfl
  | none =>
    by_cases hke : e.key = k
    · subst hke
      rw [if_pos rfl]
      show some e.time = firstTimeOf (e :: rest) e.key
      rw [firstTimeOf_cons, if_pos rfl]
    · rw [if_neg hke]
      show firstTimeOf rest k = firstTimeOf (e :: rest) k
      rw [firstTimeOf_cons, if_neg hke]

theorem offFromB_congr {acc1 acc2 : List (ImKey × ℚ)} {ests1 ests2 : List Estimate}
    (h : ∀ k, fstT acc1 ests1 k = fstT acc2 ests2 k) (e : Estimate) :
    offFromB acc1 ests1 e = offFromB acc2 ests2 e := by
  unfold offFromB
  rw [h e.key]

theorem scanTimes_offender (ests : List Estimate) :
    ∀ acc, (∀ e ∈ ests, 0 ≤ e.time) →
      (∀ k, scanTimes ests acc = Except.error k →
        ∃ e ∈ ests, e.key = k ∧ offFromB acc ests e = true) ∧
      (∀ r, scanTimes ests acc = Except.ok r → ∀ e ∈ ests, offFromB acc ests e = false) := by
  induction ests with
  | nil =>
    intro acc _
    refine ⟨fun k h => ?_, fun r _ e he => absurd he (List.not_mem_nil e)⟩
    simp [scanTimes] at h
  | cons e rest ih =>
    intro acc hnn
    have hneg : ¬ e.time < 0 := not_lt.mpr (hnn e (List.mem_cons_self e rest))
    have hrest : ∀ e' ∈ rest, 0 ≤ e'.time := fun e' he' => hnn e' (List.mem_cons_of_mem e he')
    cases hl : alookup acc e.key with
    | some t =>
      have htr : ∀ e', offFromB acc (e :: rest) e' = offFromB acc rest e' :=
        offFromB_congr (fstT_cons_of_lookup_some hl rest)
      have hfst : fstT acc (e :: rest) e.key = some t := by
        unfold fstT
        rw [hl]
      by_cases hd : 1/1000 < |t - e.time|
      · have hscan : scanTimes (e :: rest) acc = Except.error e.key := by
          simp only [scanTimes]
          rw [if_neg hneg, hl]
          exact if_pos hd
        refine ⟨fun k h => ?_, fun r h => ?_⟩
        · rw [hscan] at h
          injection h with hk
          refine ⟨e, List.mem_cons_self e rest, hk, ?_⟩
          simp only [offFromB, hfst]
          exact decide_eq_true hd
        · rw [hscan] at h
          cases h
      · have hscan : scanTimes (e :: rest) acc = scanTimes rest acc := by
          simp only [scanTimes]
          rw [if_neg hneg, hl]
          exact if_neg hd
        obtain ⟨ih_err, ih_ok⟩ := ih acc hrest
        refine ⟨fun k h => ?_, fun r h e' he' => ?_⟩
        · rw [hscan] at h
          obtain ⟨e', he', hk, hoff⟩ := ih_err k h
          exact ⟨e', List.mem_cons_of_mem e he', hk, (htr e').symm ▸ hoff⟩
        · rw [hscan] at h
          rcases List.mem_cons.mp he' with h' | h'
          · subst h'
            simp only [offFromB, hfst]
            exact decide_eq_false hd
          · rw [htr e']
            exact ih_ok r h e' h'
    | none =>
      have htr : ∀ e', offFromB (acc ++ [(e.key, e.time)]) rest e' = offFromB acc (e :: rest) e' :=
        offFromB_congr (fstT_snoc_of_lookup_none hl rest)
      have hscan : scanTimes (e :: rest) acc = scanTimes rest (acc ++ [(e.key, e.time)]) := by
        simp only [scanTimes]
        rw [if_neg hneg, hl]
      obtain ⟨ih_err, ih_ok⟩ := ih (acc ++ [(e.key, e.time)]) hrest
      refine ⟨fun k h => ?_, fun r h e' he' => ?_⟩
      · rw [hscan] at h
        obtain ⟨e', he', hk, hoff⟩ := ih_err k h
        exact ⟨e', List.mem_cons_of_mem e he', hk, (htr e') ▸ hoff⟩
      · rw [hscan] at h
        rcases List.mem_cons.mp he' with h' | h'
        · subst h'
          have hfst : fstT acc (e' :: rest) e'.key = some e'.time := by
            unfold fstT
            rw [hl, firstTimeOf_cons, if_pos rfl]
          simp only [offFromB, hfst]
          refine decide_eq_false ?_
          rw [sub_self, abs_zero]
          norm_num
        · rw [← htr e']
          exact ih_ok r h e' h'

theorem offenderB_eq_offFromB (ests : List Estimate) (e : Estimate) :
    offenderB ests e = offFromB [] ests e := rfl

theorem firstTimeOf_eq_some (ests : List Estimate) (k : ImKey) (t : ℚ)
    (h : firstTimeOf ests k = some t) : ∃ e1 ∈ ests, e1.key = k ∧ e1.time = t := by
  unfold firstTimeOf at h
  cases hf : ests.find? (fun e => decide (e.key = k)) with
  | none =>
    rw [hf] at h
    cases h
  | some e1 =>
    rw [hf] at h
    injection h with ht
    have hp := List.find?_some hf
    have hpk : e1.key = k := of_decide_eq_true hp
    exact ⟨e1, List.mem_of_find?_eq_some hf, hpk, ht⟩

/-!  ## Mean lemmas  -/

theorem allNums_map_num (l : List ℚ) : allNums (l.map NpVal.num) = some l := by
  induction l with
  | nil => rfl
  | cons q qs ih => simp [allNums, ih]

theorem npMeanVals_map_num (l : List ℚ) : npMeanVals (l.map NpVal.num) = npMean l := by
  unfold npMeanVals
  rw [allNums_map_num]

theorem npMean_of_ne_nil {l : List ℚ} (h : l ≠ []) : npMean l = NpVal.num (qMean l) := by
  unfold npMean
  rw [if_neg (by simpa using h)]

theorem npMeanVals_map_num_comp {α : Type} (f : α → ℚ) (l : List α) :
    npMeanVals (l.map (fun a => NpVal.num (f a))) = npMean (l.map f) := by
  have h : l.map (fun a => NpVal.num (f a)) = (l.map f).map NpVal.num := by
    rw [List.map_map]
    rfl
  rw [h, npMeanVals_map_num]

theorem allNums_eq_none_of_mem_nan {l : List NpVal} (h : NpVal.nan ∈ l) :
    allNums l = none := by
  induction l with
  | nil => cases h
  | cons v vs ih =>
    cases v with
    | nan => rfl
    | num q =>
      rcases List.mem_cons.mp h with h' | h'
      · cases h'
      · simp [allNums, ih h']

theorem npMeanVals_of_mem_nan {l : List NpVal} (h : NpVal.nan ∈ l) :
    npMeanVals l = NpVal.nan := by
  unfold npMeanVals
  rw [allNums_eq_none_of_mem_nan h]

/-!  ## Aggregation lemmas  -/

theorem posScoresE_cons (e : ScoreEntry) (es : List ScoreEntry) (o : Nat) :
    posScoresE (e :: es) o =
      if e.obj = o ∧ 0 < e.numInstances then e.score :: posScoresE es o
      else posScoresE es o := by
  unfold posScoresE
  by_cases h1 : e.obj = o <;> by_cases h2 : 0 < e.numInstances <;>
    simp [List.filter_cons, h1, h2]

theorem alookup_setdefaultAppend {α : Type} [DecidableEq α] (L : List (α × List ℚ))
    (o : α) (s : ℚ) (a : α) :
    alookup (setdefaultAppend L o s) a =
      if a = o then some (((alookup L o).getD []) ++ [s]) else alookup L a := by
  induction L with
  | nil =>
    simp only [setdefaultAppend, alookup]
    by_cases h : a = o
    · subst h
      simp
    · rw [if_neg (fun hh => h hh.symm), if_neg h]
  | cons kv rest ih =>
    obtain ⟨k, l⟩ := kv
    simp only [setdefaultAppend]
    by_cases hko : k = o
    · subst hko
      simp only [if_pos rfl, alookup]
      by_cases hak : k = a
      · subst hak
        simp [alookup]
      · rw [if_neg hak, if_neg (fun hh => hak hh.symm)]
        simp [alookup, hak]
    · rw [if_neg hko]
      simp only [alookup]
      by_cases hka : k = a
      · subst hka
        rw [if_pos rfl, if_neg (fun hh : k = o => hko hh), if_pos rfl]
      · rw [if_neg hka, ih]
        by_cases hao : a = o
        · subst hao
          rw [if_pos rfl, if_pos rfl, if_neg (fun hh : k = a => hka hh)]
        · rw [if_neg hao, if_neg hao, if_neg hka]

theorem map_fst_setdefaultAppend {α : Type} [DecidableEq α] (L : List (α × List ℚ))
    (o : α) (s : ℚ) :
    (setdefaultAppend L o s).map Prod.fst =
      if o ∈ L.map Prod.fst then L.map Prod.fst else L.map Prod.fst ++ [o] := by
  induction L with
  | nil => simp [setdefaultAppend]
  | cons kv rest ih =>
    obtain ⟨k, l⟩ := kv
    by_cases hko : k = o
    · subst hko
      simp [setdefaultAppend]
    · simp only [setdefaultAppend, if_neg hko, List.map_cons]
      rw [ih]
      have : o ∈ (k, l).fst :: rest.map Prod.fst ↔ o ∈ rest.map Prod.fst := by
        simp [Ne.symm hko]
      by_cases hmem : o ∈ rest.map Prod.fst
      · rw [if_pos hmem, if_pos (this.mpr hmem)]
      · rw [if_neg hmem, if_neg (fun hh => hmem (this.mp hh))]
        simp

theorem aggEntry_fst_pos {st : List (Nat × List ℚ) × List Nat} {e : ScoreEntry}
    (h : 0 < e.numInstances) :
    (aggEntry st e).1 = setdefaultAppend st.1 e.obj e.score := by
  unfold aggEntry
  rw [if_pos h]

theorem aggEntry_fst_zero {st : List (Nat × List ℚ) × List Nat} {e : ScoreEntry}
    (h : ¬ 0 < e.numInstances) : (aggEntry st e).1 = st.1 := by
  unfold aggEntry
  rw [if_neg h]

theorem foldl_aggEntry_snd (es : List ScoreEntry) :
    ∀ st : List (Nat × List ℚ) × List Nat,
      (es.foldl aggEntry st).2 =
        st.2 ++ (es.filter (fun e => decide (e.numInstances = 0))).map (fun e => e.obj) := by
  induction es with
  | nil =>
    intro st
    simp
  | cons e es ih =>
    intro st
    rw [List.foldl_cons, ih]
    by_cases h : 0 < e.numInstances
    · have h2 : (aggEntry st e).2 = st.2 := by
        unfold aggEntry
        rw [if_pos h]
      have h0 : ¬ e.numInstances = 0 := by omega
      rw [h2]
      simp [List.filter_cons, h0]
    · have h2 : (aggEntry st e).2 = st.2 ++ [e.obj] := by
        unfold aggEntry
        rw [if_neg h]
      have h0 : e.numInstances = 0 := by omega
      rw [h2]
      simp [List.filter_cons, h0]

theorem foldl_aggEntry_alookup (es : List ScoreEntry) :
    ∀ st : List (Nat × List ℚ) × List Nat, ∀ o : Nat,
      alookup (es.foldl aggEntry st).1 o =
        match alookup st.1 o with
        | some l => some (l ++ posScoresE es o)
        | none => if posScoresE es o = [] then none else some (posScoresE es o) := by
  induction es with
  | nil =>
    intro st o
    cases h : alookup st.1 o <;> simp [posScoresE, h]
  | cons e es ih =>
    intro st o
    rw [List.foldl_cons, ih]
    by_cases hpos : 0 < e.numInstances
    · rw [aggEntry_fst_pos hpos, alookup_setdefaultAppend, posScoresE_cons]
      by_cases hobj : e.obj = o
      · subst hobj
        rw [if_pos rfl]
        cases halk : alookup st.1 e.obj with
        | some l => simp [halk, hpos]
        | none => simp [halk, hpos]
      · rw [if_neg (fun hh : o = e.obj => hobj hh.symm),
          if_neg (fun hh : e.obj = o ∧ 0 < e.numInstances => hobj hh.1)]
    · rw [aggEntry_fst_zero hpos, posScoresE_cons,
        if_neg (fun hh : e.obj = o ∧ 0 < e.numInstances => hpos hh.2)]

theorem map_fst_foldl_aggEntry_nodup (es : List ScoreEntry) :
    ∀ st : List (Nat × List ℚ) × List Nat, (st.1.map Prod.fst).Nodup →
      ((es.foldl aggEntry st).1.map Prod.fst).Nodup := by
  induction es with
  | nil => intro st h; exact h
  | cons e es ih =>
    intro st h
    rw [List.foldl_cons]
    apply ih
    by_cases hpos : 0 < e.numInstances
    · rw [aggEntry_fst_pos hpos, map_fst_setdefaultAppend]
      by_cases hmem : e.obj ∈ st.1.map Prod.fst
      · rw [if_pos hmem]
        exact h
      · rw [if_neg hmem]
        simp [List.nodup_append, h, hmem]
    · rw [aggEntry_fst_zero hpos]
      exact h

theorem mAPLoop2_ok (L : List (Nat × List ℚ)) (ign : List Nat) :
    ∀ ms : List NpVal, mAPLoop2 L ign = Except.ok ms →
      (∀ p ∈ L, p.1 ∉ ign) ∧ ms = L.map (fun p => npMean p.2) := by
  induction L with
  | nil =>
    intro ms h
    injection h with h
    exact ⟨fun p hp => absurd hp (List.not_mem_nil p), h.symm⟩
  | cons p rest ih =>
    intro ms h
    obtain ⟨o, l⟩ := p
    unfold mAPLoop2 at h
    by_cases hmem : o ∈ ign
    · rw [if_pos hmem] at h
      cases h
    · rw [if_neg hmem] at h
      split at h
      next e heq => cases h
      next ms2 heq =>
        injection h with hms
        obtain ⟨h1, h2⟩ := ih ms2 heq
        refine ⟨?_, ?_⟩
        · intro q hq
          rcases List.mem_cons.mp hq with h' | h'
          · subst h'
            exact hmem
          · exact h1 q h'
        · rw [← hms, h2]
          simp

theorem mAPLoop2_ok_of_disjoint (L : List (Nat × List ℚ)) (ign : List Nat)
    (h : ∀ p ∈ L, p.1 ∉ ign) :
    mAPLoop2 L ign = Except.ok (L.map (fun p => npMean p.2)) := by
  induction L with
  | nil => rfl
  | cons p rest ih =>
    obtain ⟨o, l⟩ := p
    unfold mAPLoop2
    rw [if_neg (h (o, l) (List.mem_cons_self _ _)),
      ih (fun q hq => h q (List.mem_cons_of_mem _ hq))]
    simp

theorem alookup_aggregateFiles (files : List ScoreFile) (o : Nat) :
    alookup (aggregateFiles files).1 o =
      if posScores files o = [] then none else some (posScores files o) := by
  have h := foldl_aggEntry_alookup files.flatten ([], []) o
  exact h.trans rfl

theorem snd_aggregateFiles (files : List ScoreFile) :
    (aggregateFiles files).2 = zeroObjs files := by
  have h := foldl_aggEntry_snd files.flatten ([], [])
  simpa [zeroObjs] using h

theorem nodup_keys_aggregateFiles (files : List ScoreFile) :
    ((aggregateFiles files).1.map Prod.fst).Nodup :=
  map_fst_foldl_aggEntry_nodup files.flatten ([], []) (by simp)

theorem mem_keys_aggregateFiles (files : List ScoreFile) (o : Nat) :
    o ∈ (aggregateFiles files).1.map Prod.fst ↔ posScores files o ≠ [] := by
  have hiff : alookup (aggregateFiles files).1 o = none ↔ posScores files o = [] := by
    rw [alookup_aggregateFiles]
    by_cases hnil : posScores files o = [] <;> simp [hnil]
  constructor
  · intro hmem hnil
    exact (alookup_eq_none_iff _ _).mp (hiff.mpr hnil) hmem
  · intro hne
    by_contra hnm
    exact hne (hiff.mp ((alookup_eq_none_iff _ _).mpr hnm))

theorem snd_of_mem_aggregateFiles (files : List ScoreFile) {p : Nat × List ℚ}
    (hp : p ∈ (aggregateFiles files).1) : p.2 = posScores files p.1 := by
  have h1 := alookup_of_mem_of_nodup (nodup_keys_aggregateFiles files) hp
  rw [alookup_aggregateFiles] at h1
  by_cases hnil : posScores files p.1 = []
  · rw [if_pos hnil] at h1
    cases h1
  · rw [if_neg hnil] at h1
    injection h1 with h1
    exact h1.symm

/-!  ## Pipeline decomposition lemmas  -/

theorem pipelineStages_ok (o : Oracle) (nw : Nat) (avg : NpVal) (fs : FinalScores)
    (h : (pipelineStages o nw avg).2 = Except.ok fs) :
    ∃ m1 m2, (runErrorType o nw ErrType.mssd).2 = Except.ok m1 ∧
      (runErrorType o nw ErrType.mspd).2 = Except.ok m2 ∧
      fs = mkFinalScores m1 m2 avg := by
  unfold pipelineStages at h
  split at h
  next e heq => simp at h
  next m1 heq =>
    split at h
    next e heq2 => simp at h
    next m2 heq2 =>
      simp only [Except.ok.injEq] at h
      exact ⟨m1, m2, heq, heq2, h.symm⟩

theorem runPipeline_ok (o : Oracle) (ests : List Estimate) (nw : Nat) (fs : FinalScores)
    (h : (runPipeline o ests nw).2 = Except.ok fs) :
    ∃ tm av, scanTimes ests [] = Except.ok (tm, av) ∧
      (pipelineStages o nw
        (if av then npMean (tm.map (fun kv => kv.2)) else NpVal.num (-1))).2 =
        Except.ok fs := by
  unfold runPipeline at h
  split at h
  next k heq => simp at h
  next tm av heq => exact ⟨tm, av, heq, h⟩

theorem runSeqTasks_none (o : Oracle) (et : ErrType) :
    ∀ ks, (runSeqTasks o et ks).2 = none → ∀ k ∈ ks, o.scoreStatus et k = 0 := by
  intro ks
  induction ks with
  | nil => intro _ k hk; cases hk
  | cons k ks ih =>
    intro h k2 hk2
    unfold runSeqTasks at h
    by_cases hs : o.scoreStatus et k ≠ 0
    · rw [if_pos hs] at h
      cases h
    · rw [if_neg hs] at h
      push_neg at hs
      rcases List.mem_cons.mp hk2 with h' | h'
      · exact h' ▸ hs
      · exact ih h k2 h'

theorem runSeqTasks_none_events (o : Oracle) (et : ErrType) :
    ∀ ks, (runSeqTasks o et ks).2 = none →
      (runSeqTasks o et ks).1 =
        ks.map (fun k => Event.scoreTaskRun et k (o.scoreStatus et k)) := by
  intro ks
  induction ks with
  | nil => intro _; rfl
  | cons k ks ih =>
    intro h
    unfold runSeqTasks at h ⊢
    by_cases hs : o.scoreStatus et k ≠ 0
    · rw [if_pos hs] at h
      cases h
    · rw [if_neg hs] at h ⊢
      rw [List.map_cons, ih h]

theorem runErrorType_ok_status (o : Oracle) (nw : Nat) (et : ErrType) (m : NpVal)
    (h : (runErrorType o nw et).2 = Except.ok m) :
    o.errStatus et = 0 ∧ (nw = 1 → ∀ k, k < numThs et → o.scoreStatus et k = 0) := by
  unfold runErrorType at h
  by_cases hs : o.errStatus et ≠ 0
  · rw [if_pos hs] at h
    cases h
  · rw [if_neg hs] at h
    push_neg at hs
    refine ⟨hs, ?_⟩
    intro hnw k hk
    split at h
    next k2 heq => simp at h
    next heq =>
      subst hnw
      unfold runScoreStage at heq
      rw [if_pos rfl] at heq
      exact runSeqTasks_none o et _ heq k (List.mem_range.mpr hk)

theorem append_split_left {α : Type} {pre post l1 l2 : List α} {e : α}
    (h : pre ++ post = l1 ++ e :: l2) (he : e ∉ pre) :
    ∃ mid, l1 = pre ++ mid ∧ post = mid ++ e :: l2 := by
  induction pre generalizing l1 with
  | nil => exact ⟨l1, (List.nil_append l1).symm, h⟩
  | cons x pre ih =>
    have hx : e ∉ pre := fun hc => he (List.mem_cons_of_mem x hc)
    cases l1 with
    | nil =>
      rw [List.nil_append] at h
      injection h with h1 _
      exact absurd (h1 ▸ List.mem_cons_self x pre) he
    | cons y l1 =>
      injection h with h1 h2
      obtain ⟨mid, hm1, hm2⟩ := ih h2 hx
      exact ⟨mid, by rw [h1, List.cons_append, hm1], hm2⟩

theorem append_split_right {α : Type} {pre post l1 l2 : List α} {e : α}
    (h : pre ++ post = l1 ++ e :: l2) (he : e ∉ post) :
    ∃ mid, pre = l1 ++ e :: mid ∧ l2 = mid ++ post := by
  induction l1 generalizing pre with
  | nil =>
    cases pre with
    | nil =>
      rw [List.nil_append, List.nil_append] at h
      exact absurd (h ▸ List.mem_cons_self e l2) he
    | cons x pre =>
      rw [List.cons_append, List.nil_append] at h
      injection h with h1 h2
      exact ⟨pre, by rw [h1, List.nil_append], h2.symm⟩
  | cons y l1 ih =>
    cases pre with
    | nil =>
      rw [List.nil_append] at h
      exact absurd
        (h ▸ List.mem_cons_of_mem y (List.mem_append_right l1 (List.mem_cons_self e l2))) he
    | cons x pre =>
      rw [List.cons_append] at h
      injection h with h1 h2
      obtain ⟨mid, hm1, hm2⟩ := ih h2
      exact ⟨mid, by rw [h1, List.cons_append, hm1], hm2⟩

theorem runSeqTasks_events_shape (o : Oracle) (et : ErrType) :
    ∀ ks, ∀ ev ∈ (runSeqTasks o et ks).1, ∃ k s, ev = Event.scoreTaskRun et k s := by
  intro ks
  induction ks with
  | nil => intro ev hev; cases hev
  | cons k ks ih =>
    intro ev hev
    unfold runSeqTasks at hev
    by_cases hs : o.scoreStatus et k ≠ 0
    · rw [if_pos hs] at hev
      rw [List.mem_singleton] at hev
      exact ⟨k, _, hev⟩
    · rw [if_neg hs] at hev
      rcases List.mem_cons.mp hev with h' | h'
      · exact ⟨k, _, h'⟩
      · exact ih ev h'

theorem runScoreStage_events_shape (o : Oracle) (nw : Nat) (et : ErrType) :
    ∀ ev ∈ (runScoreStage o nw et).1, ∃ k s, ev = Event.scoreTaskRun et k s := by
  intro ev hev
  unfold runScoreStage at hev
  by_cases hnw : nw = 1
  · rw [if_pos hnw] at hev
    exact runSeqTasks_events_shape o et _ ev hev
  · rw [if_neg hnw] at hev
    obtain ⟨k, _, rfl⟩ := List.mem_map.mp hev
    exact ⟨k, _, rfl⟩

theorem runScoreStage_none_tasks (o : Oracle) (nw : Nat) (et : ErrType)
    (h : (runScoreStage o nw et).2 = none) :
    ∀ k, k < numThs et →
      ∃ s, Event.scoreTaskRun et k s ∈ (runScoreStage o nw et).1 := by
  intro k hk
  unfold runScoreStage at h ⊢
  by_cases hnw : nw = 1
  · rw [if_pos hnw] at h ⊢
    rw [runSeqTasks_none_events o et _ h]
    exact ⟨_, List.mem_map.mpr ⟨k, List.mem_range.mpr hk, rfl⟩⟩
  · rw [if_neg hnw]
    exact ⟨_, List.mem_map.mpr ⟨k, List.mem_range.mpr hk, rfl⟩⟩

theorem runErrorType_trace_shape (o : Oracle) (nw : Nat) (et : ErrType) :
    (runErrorType o nw et).1 = [Event.errStageRun et (o.errStatus et)] ∨
    (o.errStatus et = 0 ∧
      (runErrorType o nw et).1 =
        Event.errStageRun et 0 :: (runScoreStage o nw et).1) ∨
    (o.errStatus et = 0 ∧ (runScoreStage o nw et).2 = none ∧
      (runErrorType o nw et).1 =
        Event.errStageRun et 0 :: (runScoreStage o nw et).1 ++
          (List.range (numThs et)).map (fun k => Event.readScores et k)) := by
  unfold runErrorType
  by_cases hs : o.errStatus et ≠ 0
  · rw [if_pos hs]
    left
    rfl
  · rw [if_neg hs]
    push_neg at hs
    rw [hs]
    cases hsc : (runScoreStage o nw et).2 with
    | some k =>
      right; left
      exact ⟨rfl, rfl⟩
    | none =>
      right; right
      refine ⟨rfl, rfl, ?_⟩
      cases hm : mAP_per_error_type
          ((List.range (numThs et)).map (fun k => o.scoreFiles et k)) with
      | error obj => rfl
      | ok m => rfl

theorem runErrorType_etOf (o : Oracle) (nw : Nat) (et : ErrType) :
    ∀ ev ∈ (runErrorType o nw et).1, ev.etOf = et := by
  intro ev hev
  rcases runErrorType_trace_shape o nw et with h0 | ⟨_, h0⟩ | ⟨_, _, h0⟩ <;> rw [h0] at hev
  · rw [List.mem_singleton] at hev
    subst hev
    rfl
  · rcases List.mem_cons.mp hev with h' | h'
    · subst h'
      rfl
    · obtain ⟨k, s, rfl⟩ := runScoreStage_events_shape o nw et ev h'
      rfl
  · rcases List.mem_cons.mp hev with h' | h'
    · subst h'
      rfl
    · rcases List.mem_append.mp h' with h2 | h2
      · obtain ⟨k, s, rfl⟩ := runScoreStage_events_shape o nw et ev h2
        rfl
      · obtain ⟨k, _, rfl⟩ := List.mem_map.mp h2
        rfl

theorem runErrorType_split_task (o : Oracle) (nw : Nat) (et : ErrType)
    (l1 l2 : List Event) (k : Nat) (s : Int)
    (h : (runErrorType o nw et).1 = l1 ++ Event.scoreTaskRun et k s :: l2) :
    Event.errStageRun et 0 ∈ l1 := by
  rcases runErrorType_trace_shape o nw et with h0 | ⟨_, h0⟩ | ⟨_, _, h0⟩ <;> rw [h0] at h
  · cases l1 with
    | nil => simp at h
    | cons y l1 => simp at h
  · cases l1 with
    | nil => simp at h
    | cons y l1 =>
      rw [List.cons_append] at h
      injection h with h1 _
      rw [← h1]
      exact List.mem_cons_self _ _
  · cases l1 with
    | nil =>
      rw [List.cons_append] at h
      simp at h
    | cons y l1 =>
      rw [List.cons_append, List.cons_append] at h
      injection h with h1 _
      rw [← h1]
      exact List.mem_cons_self _ _

theorem runErrorType_split_read (o : Oracle) (nw : Nat) (et : ErrType)
    (l1 l2 : List Event) (k : Nat)
    (h : (runErrorType o nw et).1 = l1 ++ Event.readScores et k :: l2) :
    ∀ k2, k2 < numThs et → ∃ s, Event.scoreTaskRun et k2 s ∈ l1 := by
  rcases runErrorType_trace_shape o nw et with h0 | ⟨_, h0⟩ | ⟨_, hsc, h0⟩ <;> rw [h0] at h
  · have hm : Event.readScores et k ∈ [Event.errStageRun et (o.errStatus et)] := by
      rw [h]
      exact List.mem_append_right _ (List.mem_cons_self _ _)
    simp at hm
  · have hm : Event.readScores et k ∈
        Event.errStageRun et 0 :: (runScoreStage o nw et).1 := by
      rw [h]
      exact List.mem_append_right _ (List.mem_cons_self _ _)
    rcases List.mem_cons.mp hm with h' | h'
    · simp at h'
    · obtain ⟨k2, s2, hks⟩ := runScoreStage_events_shape o nw et _ h'
      simp at hks
  · have hpre : Event.readScores et k ∉
        Event.errStageRun et 0 :: (runScoreStage o nw et).1 := by
      intro hc
      rcases List.mem_cons.mp hc with h' | h'
      · simp at h'
      · obtain ⟨k2, s2, hks⟩ := runScoreStage_events_shape o nw et _ h'
        simp at hks
    rw [List.cons_append] at h
    have h' : (Event.errStageRun et 0 :: (runScoreStage o nw et).1) ++
        (List.range (numThs et)).map (fun kk => Event.readScores et kk) =
        l1 ++ Event.readScores et k :: l2 := by
      rw [List.cons_append]
      exact h
    obtain ⟨mid, hm1, _⟩ := append_split_left h' hpre
    intro k2 hk2
    obtain ⟨s, hs⟩ := runScoreStage_none_tasks o nw et hsc k2 hk2
    refine ⟨s, ?_⟩
    rw [hm1]
    exact List.mem_append_left _ (List.mem_cons_of_mem _ hs)

theorem runPipeline_trace_shape (o : Oracle) (ests : List Estimate) (nw : Nat) :
    (runPipeline o ests nw).1 = [] ∨
    (runPipeline o ests nw).1 = (runErrorType o nw ErrType.mssd).1 ∨
    (runPipeline o ests nw).1 =
      (runErrorType o nw ErrType.mssd).1 ++ (runErrorType o nw ErrType.mspd).1 := by
  unfold runPipeline
  cases hscan : scanTimes ests [] with
  | error k =>
    left
    rfl
  | ok r =>
    obtain ⟨tm, av⟩ := r
    dsimp only
    unfold pipelineStages
    cases h1 : (runErrorType o nw ErrType.mssd).2 with
    | error e =>
      right; left
      rfl
    | ok m1 =>
      cases h2 : (runErrorType o nw ErrType.mspd).2 with
      | error e =>
        right; right
        rfl
      | ok m2 =>
        right; right
        rfl

/-!  ## Claim theorems: timing (C3, C4, C5)  -/

/-- C3: if the scan of the estimates completes (no timing-inconsistency
error), then the computed average time per image is exactly `-1.0`
whenever some estimate has a negative time, and otherwise equals the
mean of the recorded per-image times (one per distinct
`(scene_id, im_id)` key, the key's first time); and this value is copied
verbatim into the persisted final scores as
`bop24_average_time_per_image`, both by the combiner and by the full
pipeline. -/
theorem claim_C3_average_time (ests : List Estimate) (v : NpVal)
    (h : avgTimePerImage ests = Except.ok v) :
    ((∃ e ∈ ests, e.time < 0) → v = NpVal.num (-1)) ∧
    ((∀ e ∈ ests, 0 ≤ e.time) → v = npMean (recordedTimes ests)) ∧
    (∀ m1 m2, (mkFinalScores m1 m2 v).bop24_average_time_per_image = v) ∧
    (∀ o nw fs, (runPipeline o ests nw).2 = Except.ok fs →
      fs.bop24_average_time_per_image = v) := by
  unfold avgTimePerImage at h
  split at h
  next k heq => cases h
  next tm av heq =>
    injection h with hv
    refine ⟨?_, ?_, fun m1 m2 => by rw [← hv]; rfl, ?_⟩
    · rintro ⟨e, he, hlt⟩
      cases av with
      | true =>
        obtain ⟨hnn, _⟩ := scanTimes_ok_true ests [] tm heq
        exact absurd hlt (not_lt.mpr (hnn e he))
      | false =>
        rw [← hv]
        rfl
    · intro hnn
      cases av with
      | true =>
        obtain ⟨_, htm⟩ := scanTimes_ok_true ests [] tm heq
        rw [← hv, htm]
        simp [recordedTimes]
      | false =>
        obtain ⟨e, he, hlt⟩ := scanTimes_ok_false ests [] tm heq
        exact absurd hlt (not_lt.mpr (hnn e he))
    · intro o nw fs hfs
      have hred : runPipeline o ests nw =
          pipelineStages o nw
            (if av then npMean (tm.map (fun kv => kv.2)) else NpVal.num (-1)) := by
        unfold runPipeline
        rw [heq]
      rw [hred] at hfs
      obtain ⟨m1, m2, _, _, hfs2⟩ := pipelineStages_ok o nw _ fs hfs
      rw [hfs2, ← hv]
      rfl

/-- C3 witness: a concrete run with three estimates, two sharing an
image, all times nonnegative, whose average is the mean of the two
per-image times 3 and 5. -/
theorem claim_C3_average_time_witness :
    ((∃ e ∈ exTimes, e.time < 0) → NpVal.num 4 = NpVal.num (-1)) ∧
    ((∀ e ∈ exTimes, 0 ≤ e.time) → NpVal.num 4 = npMean (recordedTimes exTimes)) ∧
    (∀ m1 m2, (mkFinalScores m1 m2 (NpVal.num 4)).bop24_average_time_per_image =
      NpVal.num 4) ∧
    (∀ o nw fs, (runPipeline o exTimes nw).2 = Except.ok fs →
      fs.bop24_average_time_per_image = NpVal.num 4) :=
  claim_C3_average_time exTimes (NpVal.num 4) (by with_unfolding_all decide)

/-- C4 counterexample: in `exPairConflict` the second and third
estimates share the `(0,0)` image key and their times differ by
`0.0017 > 0.001`, yet the scan succeeds, because the script only ever
compares an estimate against the first recorded time of its key (here
both are within `0.001` of the first time `1`). -/
theorem claim_C4_counterexample :
    (∃ e1 ∈ exPairConflict, ∃ e2 ∈ exPairConflict,
      e1.key = e2.key ∧ 1/1000 < |e1.time - e2.time|) ∧
    ∃ r, scanTimes exPairConflict [] = Except.ok r := by
  constructor
  · with_unfolding_all decide
  · exact ⟨([((0, 0), 1)], true), by with_unfolding_all decide⟩

/-- C4 (amended): for estimate sequences with all times nonnegative,
the scan raises the timing-inconsistency error iff some estimate's time
differs by more than `0.001` from the first-recorded time of its
`(scene_id, im_id)` key; the raised error names the key of such an
offending estimate; and if all times sharing a key agree pairwise within
`0.001`, validation succeeds. -/
theorem claim_C4_timing_consistency (ests : List Estimate)
    (h : ∀ e ∈ ests, 0 ≤ e.time) :
    ((∃ k, scanTimes ests [] = Except.error k) ↔
      ∃ e ∈ ests, offenderB ests e = true) ∧
    (∀ k, scanTimes ests [] = Except.error k →
      ∃ e ∈ ests, e.key = k ∧ offenderB ests e = true) ∧
    ((∀ e1 ∈ ests, ∀ e2 ∈ ests, e1.key = e2.key → |e1.time - e2.time| ≤ 1/1000) →
      ∃ r, scanTimes ests [] = Except.ok r) := by
  obtain ⟨herr, hok⟩ := scanTimes_offender ests [] h
  refine ⟨⟨?_, ?_⟩, ?_, ?_⟩
  · rintro ⟨k, hk⟩
    obtain ⟨e, he, _, hoff⟩ := herr k hk
    exact ⟨e, he, hoff⟩
  · rintro ⟨e, he, hoff⟩
    cases hs : scanTimes ests [] with
    | error k => exact ⟨k, rfl⟩
    | ok r =>
      rw [offenderB_eq_offFromB, hok r hs e he] at hoff
      cases hoff
  · intro k hk
    obtain ⟨e, he, hke, hoff⟩ := herr k hk
    exact ⟨e, he, hke, hoff⟩
  · intro hpair
    cases hs : scanTimes ests [] with
    | error k =>
      obtain ⟨e, he, _, hoff⟩ := herr k hs
      unfold offFromB at hoff
      rw [fstT_nil] at hoff
      cases hf : firstTimeOf ests e.key with
      | none =>
        rw [hf] at hoff
        cases hoff
      | some t =>
        rw [hf] at hoff
        have hgt : 1/1000 < |t - e.time| := of_decide_eq_true hoff
        obtain ⟨e1, he1, hk1, ht1⟩ := firstTimeOf_eq_some ests e.key t hf
        have := hpair e1 he1 e he hk1
        rw [ht1] at this
        exact absurd hgt (not_lt.mpr this)
    | ok r => exact ⟨r, rfl⟩

/-- C4 witness: two estimates on the same image with times 1 and 1.002;
the scan fails naming image `(0,0)`, and the first-recorded-time
characterisation holds. -/
theorem claim_C4_timing_consistency_witness :
    ((∃ k, scanTimes exConflict [] = Except.error k) ↔
      ∃ e ∈ exConflict, offenderB exConflict e = true) ∧
    (∀ k, scanTimes exConflict [] = Except.error k →
      ∃ e ∈ exConflict, e.key = k ∧ offenderB exConflict e = true) ∧
    ((∀ e1 ∈ exConflict, ∀ e2 ∈ exConflict, e1.key = e2.key →
        |e1.time - e2.time| ≤ 1/1000) →
      ∃ r, scanTimes exConflict [] = Except.ok r) :=
  claim_C4_timing_consistency exConflict (by with_unfolding_all decide)

/-- C5 counterexample: on the empty estimate sequence the computed
average is `np.mean` of an empty collection — NaN — not the `-1.0`
unavailable sentinel the claim requires. -/
theorem claim_C5_counterexample :
    avgTimePerImage [] = Except.ok NpVal.nan ∧ NpVal.nan ≠ NpVal.num (-1) := by
  with_unfolding_all decide

/-- C5 (amended): for the empty estimate sequence, the scan succeeds
with an empty times map and `times_available = True`, and the computed
average time per image is the mean of an empty collection (NaN), not the
`-1.0` sentinel. -/
theorem claim_C5_empty_sequence :
    scanTimes ([] : List Estimate) [] = Except.ok ([], true) ∧
    avgTimePerImage [] = Except.ok NpVal.nan := by
  with_unfolding_all decide

/-!  ## Claim theorems: aggregation (C1, C2, C9, C10)  -/

/-- C1: whenever the aggregation of an error type's threshold files
completes (no assertion failure), its mAP is obtained by enumerating,
without repetition, exactly those object identifiers that have at least
one score from a threshold file entry with positive instance count, and
taking the mean over these objects of the mean of each object's
per-threshold scores; objects whose instance count is never positive
contribute to neither mean. -/
theorem claim_C1_mAP_per_error_type (files : List ScoreFile) (v : NpVal)
    (h : mAP_per_error_type files = Except.ok v) :
    ∃ objs : List Nat, objs.Nodup ∧
      (∀ o, o ∈ objs ↔ posScores files o ≠ []) ∧
      v = npMeanVals (objs.map (fun o => npMean (posScores files o))) ∧
      (objs ≠ [] →
        v = NpVal.num (qMean (objs.map (fun o => qMean (posScores files o))))) := by
  unfold mAP_per_error_type at h
  split at h
  next obj heq => cases h
  next ms heq =>
    injection h with hv
    obtain ⟨hdis, hms⟩ := mAPLoop2_ok _ _ ms heq
    have hkeys : ∀ p ∈ (aggregateFiles files).1, npMean p.2 = npMean (posScores files p.1) :=
      fun p hp => by rw [snd_of_mem_aggregateFiles files hp]
    have hmap : ms = ((aggregateFiles files).1.map Prod.fst).map
        (fun o => npMean (posScores files o)) := by
      rw [hms, List.map_map]
      exact List.map_congr_left hkeys
    refine ⟨(aggregateFiles files).1.map Prod.fst, nodup_keys_aggregateFiles files,
      mem_keys_aggregateFiles files, ?_, ?_⟩
    · rw [← hv, hmap]
    · intro hne
      have hnn : ∀ o ∈ (aggregateFiles files).1.map Prod.fst,
          npMean (posScores files o) = NpVal.num (qMean (posScores files o)) :=
        fun o ho => npMean_of_ne_nil ((mem_keys_aggregateFiles files o).mp ho)
      rw [← hv, hmap, List.map_congr_left hnn, npMeanVals_map_num_comp,
        npMean_of_ne_nil (by simpa using hne)]

/-- C1 witness: on the spec's example — object 1 with scores
`[0.2, 0.4, 0.6]` and object 2 with scores `[1.0, 1.0]`, all counts
positive — the error type's mAP is `mean(0.4, 1.0) = 0.7`. -/
theorem claim_C1_mAP_per_error_type_witness :
    ∃ objs : List Nat, objs.Nodup ∧
      (∀ o, o ∈ objs ↔ posScores exAveraging o ≠ []) ∧
      NpVal.num (7/10) =
        npMeanVals (objs.map (fun o => npMean (posScores exAveraging o))) ∧
      (objs ≠ [] → NpVal.num (7/10) =
        NpVal.num (qMean (objs.map (fun o => qMean (posScores exAveraging o))))) :=
  claim_C1_mAP_per_error_type exAveraging (NpVal.num (7/10))
    (by with_unfolding_all decide)

/-- C2: the combined `bop24_mAP` is the unweighted arithmetic mean of
the two per-error-type mAPs, and in particular `0.70` and `0.50`
combine to `0.60`. -/
theorem claim_C2_combined_mAP (m1 m2 : ℚ) (t : NpVal) :
    (mkFinalScores (NpVal.num m1) (NpVal.num m2) t).bop24_mAP =
      NpVal.num ((m1 + m2) / 2) ∧
    (mkFinalScores (NpVal.num (7/10)) (NpVal.num (1/2)) t).bop24_mAP =
      NpVal.num (3/5) := by
  have hgen : ∀ a b : ℚ, (mkFinalScores (NpVal.num a) (NpVal.num b) t).bop24_mAP =
      NpVal.num ((a + b) / 2) := by
    intro a b
    show npMeanVals [NpVal.num a, NpVal.num b] = _
    have hl : [NpVal.num a, NpVal.num b] = [a, b].map NpVal.num := rfl
    rw [hl, npMeanVals_map_num, npMean_of_ne_nil (by simp)]
    congr 1
    simp [qMean]
  refine ⟨hgen m1 m2, ?_⟩
  rw [hgen (7/10) (1/2)]
  congr 1
  norm_num

/-- C9: within one error type, aggregation success implies that no
averaged object was ever recorded as ignored; and an object reported
with zero instances in one threshold file and a positive count in
another makes the aggregation fail with the assertion error instead of
silently averaging it. -/
theorem claim_C9_zero_instance_consistency (files : List ScoreFile) :
    (∀ v, mAP_per_error_type files = Except.ok v →
      ∀ o ∈ (aggregateFiles files).1.map Prod.fst, o ∉ (aggregateFiles files).2) ∧
    (∀ o, (∃ e ∈ files.flatten, e.obj = o ∧ e.numInstances = 0) →
      (∃ e ∈ files.flatten, e.obj = o ∧ 0 < e.numInstances) →
      ∃ a, mAP_per_error_type files = Except.error a) := by
  have key : ∀ ms, mAPLoop2 (aggregateFiles files).1 (aggregateFiles files).2 =
      Except.ok ms →
      ∀ o ∈ (aggregateFiles files).1.map Prod.fst, o ∉ (aggregateFiles files).2 := by
    intro ms heq o hmem
    obtain ⟨hdis, _⟩ := mAPLoop2_ok _ _ ms heq
    obtain ⟨p, hp, hpo⟩ := List.mem_map.mp hmem
    exact hpo ▸ hdis p hp
  constructor
  · intro v h
    unfold mAP_per_error_type at h
    split at h
    next obj heq => cases h
    next ms heq => exact key ms heq
  · intro o hzero hpos
    have hign : o ∈ (aggregateFiles files).2 := by
      rw [snd_aggregateFiles]
      obtain ⟨e, he, heo, hen⟩ := hzero
      exact List.mem_map.mpr ⟨e, List.mem_filter.mpr ⟨he, by simp [hen]⟩, heo⟩
    have hkey : o ∈ (aggregateFiles files).1.map Prod.fst := by
      obtain ⟨e, he, heo, hen⟩ := hpos
      refine (mem_keys_aggregateFiles files o).mpr (List.ne_nil_of_mem (a := e.score) ?_)
      exact List.mem_map.mpr ⟨e, List.mem_filter.mpr ⟨he, by simp [heo, hen]⟩, rfl⟩
    cases hm : mAPLoop2 (aggregateFiles files).1 (aggregateFiles files).2 with
    | error a =>
      refine ⟨a, ?_⟩
      unfold mAP_per_error_type
      rw [hm]
    | ok ms => exact absurd hign (key ms hm o hkey)

/-- C9 witness: object 1 has zero instances in one threshold file and
two instances in another, so the aggregation fails with the assertion
error. -/
theorem claim_C9_zero_instance_consistency_witness :
    ∃ a, mAP_per_error_type exMixedZero = Except.error a :=
  (claim_C9_zero_instance_consistency exMixedZero).2 1
    ⟨⟨1, 1/2, 0⟩, by with_unfolding_all decide, rfl, rfl⟩
    ⟨⟨1, 1/2, 2⟩, by with_unfolding_all decide, rfl, by norm_num⟩

/-- C10: when every entry of every threshold file has instance count 0
(so no object qualifies for averaging), the aggregation does not fail:
it returns the mean of an empty sequence — NaN — and a NaN
per-error-type mAP makes the combined `bop24_mAP` of the persisted
final scores NaN as well. -/
theorem claim_C10_empty_average_set (files : List ScoreFile)
    (h : ∀ e ∈ files.flatten, e.numInstances = 0) :
    mAP_per_error_type files = Except.ok NpVal.nan ∧
    (∀ m t, (mkFinalScores NpVal.nan m t).bop24_mAP = NpVal.nan ∧
      (mkFinalScores m NpVal.nan t).bop24_mAP = NpVal.nan) := by
  have hfst : (aggregateFiles files).1 = [] := by
    cases hs : (aggregateFiles files).1 with
    | nil => rfl
    | cons p rest =>
      exfalso
      have hmem : p.1 ∈ (aggregateFiles files).1.map Prod.fst := by
        rw [hs]
        exact List.mem_map_of_mem Prod.fst (List.mem_cons_self p rest)
      refine (mem_keys_aggregateFiles files p.1).mp hmem ?_
      have hfil : files.flatten.filter
          (fun e => decide (e.obj = p.1) && decide (0 < e.numInstances)) = [] := by
        rw [List.filter_eq_nil_iff]
        intro e he
        simp [h e he]
      show posScoresE files.flatten p.1 = []
      unfold posScoresE
      rw [hfil]
      rfl
  constructor
  · unfold mAP_per_error_type
    rw [hfst]
    rfl
  · intro m t
    constructor
    · show npMeanVals [NpVal.nan, m] = NpVal.nan
      exact npMeanVals_of_mem_nan (List.mem_cons_self _ _)
    · show npMeanVals [m, NpVal.nan] = NpVal.nan
      exact npMeanVals_of_mem_nan (by simp)

/-- C10 witness: one threshold file whose single object has count 0;
the per-error-type mAP is NaN and it propagates into `bop24_mAP`. -/
theorem claim_C10_empty_average_set_witness :
    mAP_per_error_type exAllZero = Except.ok NpVal.nan ∧
    (∀ m t, (mkFinalScores NpVal.nan m t).bop24_mAP = NpVal.nan ∧
      (mkFinalScores m NpVal.nan t).bop24_mAP = NpVal.nan) :=
  claim_C10_empty_average_set exAllZero (by with_unfolding_all decide)

/-!  ## Claim theorems: stage dispatch (C6, C7, C8)  -/

/-- C6: a successful pipeline outcome (the only way a final-scores file
is produced) requires every error stage, and in sequential mode every
score task, to have terminated with status 0 — so any non-zero status is
fatal; moreover a non-zero error-stage status makes the pipeline return
the stage failure itself, and in sequential mode a failing score task
makes it return the score-stage failure, in both cases before any
aggregation result could contribute. -/
theorem claim_C6_stage_failures_fatal (o : Oracle) (ests : List Estimate) (nw : Nat) :
    (∀ fs, (runPipeline o ests nw).2 = Except.ok fs →
      (∀ et, o.errStatus et = 0) ∧
      (nw = 1 → ∀ et, ∀ k, k < numThs et → o.scoreStatus et k = 0)) ∧
    (∀ tm av, scanTimes ests [] = Except.ok (tm, av) → o.errStatus ErrType.mssd ≠ 0 →
      (runPipeline o ests nw).2 = Except.error (PipeErr.errorStageFailure ErrType.mssd)) ∧
    (∀ tm av k, scanTimes ests [] = Except.ok (tm, av) → nw = 1 →
      o.errStatus ErrType.mssd = 0 →
      (runSeqTasks o ErrType.mssd (List.range (numThs ErrType.mssd))).2 = some k →
      (runPipeline o ests nw).2 =
        Except.error (PipeErr.scoreStageFailure ErrType.mssd k)) := by
  refine ⟨?_, ?_, ?_⟩
  · intro fs h
    obtain ⟨tm, av, hscan, hstg⟩ := runPipeline_ok o ests nw fs h
    obtain ⟨m1, m2, h1, h2, _⟩ := pipelineStages_ok o nw _ fs hstg
    obtain ⟨e1, s1⟩ := runErrorType_ok_status o nw ErrType.mssd m1 h1
    obtain ⟨e2, s2⟩ := runErrorType_ok_status o nw ErrType.mspd m2 h2
    refine ⟨fun et => ?_, fun hnw et => ?_⟩ <;> cases et
    · exact e1
    · exact e2
    · exact s1 hnw
    · exact s2 hnw
  · intro tm av hscan hne
    have hrun : runPipeline o ests nw =
        pipelineStages o nw
          (if av then npMean (tm.map (fun kv => kv.2)) else NpVal.num (-1)) := by
      unfold runPipeline
      rw [hscan]
    have h1 : (runErrorType o nw ErrType.mssd).2 =
        Except.error (PipeErr.errorStageFailure ErrType.mssd) := by
      unfold runErrorType
      rw [if_pos hne]
    rw [hrun]
    unfold pipelineStages
    rw [h1]
  · intro tm av k hscan hnw hz hseq
    subst hnw
    have hrun : runPipeline o ests 1 =
        pipelineStages o 1
          (if av then npMean (tm.map (fun kv => kv.2)) else NpVal.num (-1)) := by
      unfold runPipeline
      rw [hscan]
    have hsc : (runScoreStage o 1 ErrType.mssd).2 = some k := by
      unfold runScoreStage
      rw [if_pos rfl]
      exact hseq
    have h1 : (runErrorType o 1 ErrType.mssd).2 =
        Except.error (PipeErr.scoreStageFailure ErrType.mssd k) := by
      unfold runErrorType
      rw [if_neg (not_ne_iff.mpr hz), hsc]
    rw [hrun]
    unfold pipelineStages
    rw [h1]

/-- C6 witness: with every error stage returning status 1, the pipeline
on an empty submission aborts with the mssd error-stage failure and
writes no final scores. -/
theorem claim_C6_stage_failures_fatal_witness :
    (runPipeline failErrOracle [] 1).2 =
      Except.error (PipeErr.errorStageFailure ErrType.mssd) :=
  (claim_C6_stage_failures_fatal failErrOracle [] 1).2.1 [] true
    (by with_unfolding_all decide) (by with_unfolding_all decide)

theorem runScoreStage_pooled (o : Oracle) {nw : Nat} (hnw : nw ≠ 1) (et : ErrType) :
    runScoreStage o nw et =
      ((List.range (numThs et)).map
        (fun k => Event.scoreTaskRun et k (o.scoreStatus et k)), none) := by
  unfold runScoreStage
  rw [if_neg hnw]

theorem runErrorType_pooled_congr (o : Oracle) {nw : Nat} (hnw : nw ≠ 1)
    (f : ErrType → Nat → Int) (et : ErrType) :
    (runErrorType { o with scoreStatus := f } nw et).2 = (runErrorType o nw et).2 ∧
    (runErrorType { o with scoreStatus := f } nw et).1.map Event.eraseStatus =
      (runErrorType o nw et).1.map Event.eraseStatus := by
  unfold runErrorType
  by_cases hs : o.errStatus et ≠ 0
  · rw [if_pos hs, if_pos hs]
    exact ⟨rfl, rfl⟩
  · rw [if_neg hs, if_neg hs]
    rw [runScoreStage_pooled _ hnw, runScoreStage_pooled _ hnw]
    dsimp only
    cases hm : mAP_per_error_type
        ((List.range (numThs et)).map (fun k => o.scoreFiles et k)) with
    | error obj =>
      refine ⟨rfl, ?_⟩
      simp [Event.eraseStatus, List.map_map, Function.comp]
    | ok m =>
      refine ⟨rfl, ?_⟩
      simp [Event.eraseStatus, List.map_map, Function.comp]

/-- C7: when `num_workers > 1`, the pipeline's outcome is entirely
independent of the score tasks' termination statuses — replacing every
status by anything else raises no error, aborts nothing, and leaves the
performed stages (statuses erased) identical, so the dispatcher proceeds
to aggregation regardless of individual task outcomes. -/
theorem claim_C7_pooled_failures_unsurfaced (o : Oracle) (ests : List Estimate)
    (nw : Nat) (h : 1 < nw) (f : ErrType → Nat → Int) :
    (runPipeline { o with scoreStatus := f } ests nw).2 =
      (runPipeline o ests nw).2 ∧
    (runPipeline { o with scoreStatus := f } ests nw).1.map Event.eraseStatus =
      (runPipeline o ests nw).1.map Event.eraseStatus := by
  have hnw : nw ≠ 1 := by omega
  have hmssd := runErrorType_pooled_congr o hnw f ErrType.mssd
  have hmspd := runErrorType_pooled_congr o hnw f ErrType.mspd
  unfold runPipeline
  cases hscan : scanTimes ests [] with
  | error k => exact ⟨rfl, rfl⟩
  | ok r =>
    obtain ⟨tm, av⟩ := r
    dsimp only
    unfold pipelineStages
    rw [hmssd.1]
    cases h1 : (runErrorType o nw ErrType.mssd).2 with
    | error e => exact ⟨rfl, hmssd.2⟩
    | ok m1 =>
      rw [hmspd.1]
      cases h2 : (runErrorType o nw ErrType.mspd).2 with
      | error e =>
        refine ⟨rfl, ?_⟩
        rw [List.map_append, List.map_append, hmssd.2, hmspd.2]
      | ok m2 =>
        refine ⟨rfl, ?_⟩
        rw [List.map_append, List.map_append, hmssd.2, hmspd.2]

/-- C7 witness: with two workers, making every score task fail (status
1) changes neither the outcome nor the performed stages of a concrete
run. -/
theorem claim_C7_pooled_failures_unsurfaced_witness :
    (runPipeline { trivOracle with scoreStatus := fun _ _ => 1 } [] 2).2 =
      (runPipeline trivOracle [] 2).2 ∧
    (runPipeline { trivOracle with scoreStatus := fun _ _ => 1 } [] 2).1.map
        Event.eraseStatus =
      (runPipeline trivOracle [] 2).1.map Event.eraseStatus :=
  claim_C7_pooled_failures_unsurfaced trivOracle [] 2 (by decide) (fun _ _ => 1)

/-- C8: in every run of the pipeline (any oracle, any worker count),
wherever the event trace records a score task of error type `et`, a
successful error-stage run of `et` (status 0) occurs strictly earlier;
and wherever it records the aggregation reading a score file of `et`,
every one of `et`'s score tasks (one per threshold) has terminated
strictly earlier — the hard ordering and the wait-for-all barrier. -/
theorem claim_C8_stage_ordering (o : Oracle) (ests : List Estimate) (nw : Nat) :
    (∀ l1 l2 et k s,
      (runPipeline o ests nw).1 = l1 ++ Event.scoreTaskRun et k s :: l2 →
      Event.errStageRun et 0 ∈ l1) ∧
    (∀ l1 l2 et k,
      (runPipeline o ests nw).1 = l1 ++ Event.readScores et k :: l2 →
      ∀ k2, k2 < numThs et → ∃ s, Event.scoreTaskRun et k2 s ∈ l1) := by
  constructor
  · intro l1 l2 et k s h
    rcases runPipeline_trace_shape o ests nw with h0 | h0 | h0 <;> rw [h0] at h
    · simp at h
    · cases et with
      | mssd => exact runErrorType_split_task o nw ErrType.mssd l1 l2 k s h
      | mspd =>
        have hmem : Event.scoreTaskRun ErrType.mspd k s ∈
            (runErrorType o nw ErrType.mssd).1 := by
          rw [h]
          exact List.mem_append_right _ (List.mem_cons_self _ _)
        have := runErrorType_etOf o nw ErrType.mssd _ hmem
        simp [Event.etOf] at this
    · cases et with
      | mssd =>
        have hne : Event.scoreTaskRun ErrType.mssd k s ∉
            (runErrorType o nw ErrType.mspd).1 := by
          intro hc
          have := runErrorType_etOf o nw ErrType.mspd _ hc
          simp [Event.etOf] at this
        obtain ⟨mid, hpre, _⟩ := append_split_right h hne
        exact runErrorType_split_task o nw ErrType.mssd l1 mid k s hpre
      | mspd =>
        have hne : Event.scoreTaskRun ErrType.mspd k s ∉
            (runErrorType o nw ErrType.mssd).1 := by
          intro hc
          have := runErrorType_etOf o nw ErrType.mssd _ hc
          simp [Event.etOf] at this
        obtain ⟨mid, hl1, hpost⟩ := append_split_left h hne
        have := runErrorType_split_task o nw ErrType.mspd mid l2 k s hpost
        rw [hl1]
        exact List.mem_append_right _ this
  · intro l1 l2 et k h
    rcases runPipeline_trace_shape o ests nw with h0 | h0 | h0 <;> rw [h0] at h
    · simp at h
    · cases et with
      | mssd => exact runErrorType_split_read o nw ErrType.mssd l1 l2 k h
      | mspd =>
        have hmem : Event.readScores ErrType.mspd k ∈
            (runErrorType o nw ErrType.mssd).1 := by
          rw [h]
          exact List.mem_append_right _ (List.mem_cons_self _ _)
        have := runErrorType_etOf o nw ErrType.mssd _ hmem
        simp [Event.etOf] at this
    · cases et with
      | mssd =>
        have hne : Event.readScores ErrType.mssd k ∉
            (runErrorType o nw ErrType.mspd).1 := by
          intro hc
          have := runErrorType_etOf o nw ErrType.mspd _ hc
          simp [Event.etOf] at this
        obtain ⟨mid, hpre, _⟩ := append_split_right h hne
        exact runErrorType_split_read o nw ErrType.mssd l1 mid k hpre
      | mspd =>
        have hne : Event.readScores ErrType.mspd k ∉
            (runErrorType o nw ErrType.mssd).1 := by
          intro hc
          have := runErrorType_etOf o nw ErrType.mssd _ hc
          simp [Event.etOf] at this
        obtain ⟨mid, hl1, hpost⟩ := append_split_left h hne
        intro k2 hk2
        obtain ⟨s, hs⟩ := runErrorType_split_read o nw ErrType.mspd mid l2 k hpost k2 hk2
        refine ⟨s, ?_⟩
        rw [hl1]
        exact List.mem_append_right _ hs

/-- C8 witness: two instantiations of the ordering theorem on concrete
runs — a failing sequential score task is preceded by its successful
error stage, and the first mssd score-file read of a successful run is
preceded by all ten mssd score tasks. -/
theorem claim_C8_stage_ordering_witness :
    Event.errStageRun ErrType.mssd 0 ∈ [Event.errStageRun ErrType.mssd 0] ∧
    (∀ k2, k2 < numThs ErrType.mssd →
      ∃ s, Event.scoreTaskRun ErrType.mssd k2 s ∈
        Event.errStageRun ErrType.mssd 0 ::
          (List.range (numThs ErrType.mssd)).map
            (fun k => Event.scoreTaskRun ErrType.mssd k 0)) :=
  ⟨(claim_C8_stage_ordering failTasksOracle [] 1).1
      [Event.errStageRun ErrType.mssd 0] [] ErrType.mssd 0 1
      (by with_unfolding_all decide),
   (claim_C8_stage_ordering trivOracle [] 1).2
      (Event.errStageRun ErrType.mssd 0 ::
        (List.range (numThs ErrType.mssd)).map
          (fun k => Event.scoreTaskRun ErrType.mssd k 0))
      (((List.range 9).map (fun k => Event.readScores ErrType.mssd (k + 1))) ++
        (Event.errStageRun ErrType.mspd 0 ::
          ((List.range (numThs ErrType.mspd)).map
              (fun k => Event.scoreTaskRun ErrType.mspd k 0) ++
            (List.range (numThs ErrType.mspd)).map
              (fun k => Event.readScores ErrType.mspd k))))
      ErrType.mssd 0
      (by with_unfolding_all decide)⟩

end BopEval
